import Mathlib

/-!
Verification development for the `typetest` terminal typing trainer.

The session engine lives in the Go model type (`model`) and its `Update`
method: a ghost text, the bubbles `textinput` buffer (typed input plus
cursor), a countdown timer, an error-position set, a typed high-water mark,
and derived WPM/accuracy metrics.  We embed the engine shallowly:

* `Model` mirrors the Go `model` struct.  `input`/`pos` are the
  `textinput.Model` value and cursor.  The timer is represented by its
  remaining seconds (`timeoutSecs`) and its `Timedout()` flag (`timedout`).
  Go's `float32`/`float64` arithmetic on accuracy, WPM and elapsed time is
  embedded over `ℚ`; `map[int]bool` (with only `true` stored) becomes
  `Finset ℕ`.
* Each key-message branch of `model.Update`, together with the
  `m.textInput.Update(msg)` call that follows it (the bubbles `textinput`
  component inserts the rune of a `KeyRunes`/`KeySpace` message at the
  cursor and deletes the character before the cursor on `KeyBackspace`),
  becomes one event function `charEvent`/`spaceEvent`/`backspaceEvent`.
  The `timer.TickMsg` branch becomes `tickEvent`.
* Go code that panics (out-of-range string indexing, `strings.Repeat`
  with a negative count, `rand.Intn` with a non-positive bound) is
  embedded as `Option`/`WordsOutcome` failure values.
-/

namespace TypeTest

/-- Insertion of one character at index `i`, exactly what the bubbles
`textinput` component does with an input rune at the cursor. -/
def insertAt (l : List Char) (i : Nat) (c : Char) : List Char :=
  l.take i ++ [c] ++ l.drop i

/-- Ghost-text elongation `m.ghostText[:cursorPos] + " " + m.ghostText[:cursorPos]`
rewritten over lists: a single space is inserted at position `p`. -/
def elongate (g : List Char) (p : Nat) : List Char :=
  g.take p ++ [' '] ++ g.drop p

/-- Deletion of the character just before `pos`:
`s[:pos-1] + s[pos:]`.  This is both the ghost-text backspace-merge
mutation and the `textinput` backspace on the typed value. -/
def deleteBefore (l : List Char) (pos : Nat) : List Char :=
  l.take (pos - 1) ++ l.drop pos

/-- Session state, mirroring the Go `model` struct of the timed variant
(`textInput` value and cursor, `ghostText`, `wordsPerMinute`, timer,
`started`, `accuracy`, `errorPositions`, `maxTyped`). -/
structure Model where
  ghostText : List Char
  input : List Char
  pos : Nat
  started : Bool
  timedout : Bool
  errorPositions : Finset Nat
  maxTyped : Nat
  accuracy : ℚ
  wordsPerMinute : ℤ
  timeoutSecs : ℚ
  deriving DecidableEq

/-- Go constant `DURATION = time.Second * 10`, in seconds. -/
def durationSecs : ℚ := 10

/-- Session state built by `initialModel`: fresh text input, timer at the
full duration, accuracy 100, WPM 0, empty error set. -/
def initialModel (text : List Char) : Model where
  ghostText := text
  input := []
  pos := 0
  started := false
  timedout := false
  errorPositions := ∅
  maxTyped := 0
  accuracy := 100
  wordsPerMinute := 0
  timeoutSecs := durationSecs

/-- The marking loop of `calculateAccuracy`: every index of the typed
input whose character differs from the ghost character at the same index
is added to `errorPositions`. -/
def markErrors (input ghost : List Char) (errs : Finset Nat) : Finset Nat :=
  errs ∪ (Finset.range input.length).filter
    (fun i => input.getD i ' ' ≠ ghost.getD i ' ')

/-- Go `calculateAccuracy`: early return on empty input; otherwise mark
error positions (Go indexes `m.ghostText[i]` for every `i < len(input)`,
which panics when the ghost text is shorter than the input — embedded as
`none`); then, only when the typed length exceeds `maxTyped`, bump
`maxTyped` and recompute `accuracy = correct / len(input) * 100`. -/
def calculateAccuracy (m : Model) : Option Model :=
  if m.input.length = 0 then some m
  else if m.ghostText.length < m.input.length then none
  else
    let errs := markErrors m.input m.ghostText m.errorPositions
    if m.maxTyped < m.input.length then
      some { m with
        errorPositions := errs
        maxTyped := m.input.length
        accuracy := ((m.input.length : ℚ) - (errs.card : ℚ)) / (m.input.length : ℚ) * 100 }
    else
      some { m with errorPositions := errs }

/-- The `tea.KeyRunes` branch of `model.Update` followed by the
`textinput` update and the accuracy call: a no-op once timed out;
otherwise reads `m.ghostText[cursorPos]` (Go panics when the cursor sits
at the end of the ghost text — embedded as `none`), elongates the ghost
text when that character is a space, starts the session, inserts the
typed rune at the cursor, and recomputes accuracy when started. -/
def charEvent (ch : Char) (m : Model) : Option Model :=
  if m.timedout then some m
  else if m.ghostText.length ≤ m.pos then none
  else
    let m1 := if m.ghostText.getD m.pos ' ' = ' ' then
                { m with ghostText := elongate m.ghostText m.pos }
              else m
    let m2 := { m1 with started := true }
    let m3 := { m2 with input := insertAt m2.input m2.pos ch, pos := m2.pos + 1 }
    if m3.started then calculateAccuracy m3 else some m3

/-- The `tea.KeySpace` branch of `model.Update`: a no-op once timed out;
otherwise `strings.Index(m.ghostText[cursorPos:], " ")` finds the next
delimiter (when there is none Go gets `-1` and `strings.Repeat(" ", -1)`
panics — embedded as `none`), that many spaces are appended to the typed
value and the cursor is set to its end; the `textinput` update then
inserts the space rune of the message itself, and accuracy is recomputed
when started. -/
def spaceEvent (m : Model) : Option Model :=
  if m.timedout then some m
  else
    match (m.ghostText.drop m.pos).findIdx? (fun g => g = ' ') with
    | none => none
    | some k =>
      let newInput := m.input ++ List.replicate k ' '
      let m1 := { m with input := newInput, pos := newInput.length }
      let m2 := { m1 with input := insertAt m1.input m1.pos ' ', pos := m1.pos + 1 }
      if m2.started then calculateAccuracy m2 else some m2

/-- The `tea.KeyBackspace` branch of `model.Update`: when the cursor is
inside the ghost text and both `ghostText[cursorPos]` and
`ghostText[cursorPos-1]` are spaces, one of the two adjacent spaces is
deleted (Go's `&&` short-circuits, so `ghostText[cursorPos-1]` is read
only when `ghostText[cursorPos]` is a space; at `cursorPos == 0` that
read panics — embedded as `none`).  The `textinput` update then performs
the ordinary backspace on the typed value, and accuracy is recomputed
when started.  Note there is no timed-out guard in this branch. -/
def backspaceEvent (m : Model) : Option Model :=
  let afterGhost : Option Model :=
    if m.ghostText.length ≤ m.pos then some m
    else if m.ghostText.getD m.pos ' ' = ' ' then
      if m.pos = 0 then none
      else if m.ghostText.getD (m.pos - 1) ' ' = ' ' then
        some { m with ghostText := deleteBefore m.ghostText m.pos }
      else some m
    else some m
  afterGhost.bind fun m1 =>
    let m2 := if m1.input.length = 0 then m1
              else { m1 with input := deleteBefore m1.input m1.pos, pos := m1.pos - 1 }
    if m2.started then calculateAccuracy m2 else some m2

/-- The `timer.TickMsg` branch of `model.Update`: a no-op once timed out;
otherwise `elapsed = DURATION - m.timer.Timeout` and, when
`elapsed >= 0.1`, `wordsPerMinute = int((len(v)/5) * (60/elapsed))`
(non-negative here, so Go's truncation is the floor); finally the timer
update decrements the remaining time by the one-second tick interval. -/
def tickEvent (m : Model) : Model :=
  if m.timedout then m
  else
    let words : ℚ := (m.input.length : ℚ) / 5
    let elapsed : ℚ := durationSecs - m.timeoutSecs
    let m1 := if 1/10 ≤ elapsed then
                { m with wordsPerMinute := Int.floor (words * (60 / elapsed)) }
              else m
    { m1 with timeoutSecs := m1.timeoutSecs - 1,
              timedout := decide (m1.timeoutSecs - 1 ≤ 0) }

/-- Discrete session events delivered to `model.Update`. -/
inductive Event where
  | charKey : Char → Event
  | spaceKey : Event
  | backspaceKey : Event
  | tick : Event
  deriving DecidableEq, Repr

/-- One dispatch of `model.Update` on an event. -/
def step : Event → Model → Option Model
  | .charKey c, m => charEvent c m
  | .spaceKey, m => spaceEvent m
  | .backspaceKey, m => backspaceEvent m
  | .tick, m => some (tickEvent m)

/-- A whole sequence of character keystrokes. -/
def runChars : List Char → Model → Option Model
  | [], m => some m
  | c :: cs, m => (charEvent c m).bind (runChars cs)

/-- Go `strings.Split(contents, "\n")`: the maximal newline-free pieces
of the contents, empty pieces included; always at least one piece. -/
def splitNewlines : List Char → List (List Char)
  | [] => [[]]
  | c :: rest =>
    match splitNewlines rest with
    | [] => [[c]]
    | w :: ws => if c = '\n' then [] :: w :: ws else (c :: w) :: ws

/-- Outcome of Go `getWords`: the I/O error returned when `words.txt`
cannot be read, the `rand.Intn` panic, or the selected words. -/
inductive WordsOutcome where
  | ioError : WordsOutcome
  | panicked : WordsOutcome
  | ok : List (List Char) → WordsOutcome
  deriving DecidableEq

/-- Go `getWords`: the file contents are an oracle (`none` models a read
failure, returned as an error).  The contents are split on newlines and
`count` indices are drawn by `rand.Intn(len(words)-1)`; the random
source is an oracle `rnd`, reduced modulo the `Intn` bound, which gives
exactly the support of `Intn`.  `rand.Intn` panics when its bound is not
positive, i.e. when the split yields a single element. -/
def getWords (count : Nat) (file : Option (List Char)) (rnd : Nat → Nat) : WordsOutcome :=
  match file with
  | none => .ioError
  | some contents =>
    let words := splitNewlines contents
    if words.length ≤ 1 then .panicked
    else .ok ((List.range count).map fun i => words.getD (rnd i % (words.length - 1)) [])

/-- Go `main`: `strings.Join(words, " ")` builds the ghost text. -/
def ghostFromWords (ws : List (List Char)) : List Char :=
  List.intercalate [' '] ws

/-- A word is a possible selection of `getWords` when some random oracle
makes it appear in the result. -/
def selectable (count : Nat) (contents : List Char) (w : List Char) : Prop :=
  ∃ rnd ws, getWords count (some contents) rnd = WordsOutcome.ok ws ∧ w ∈ ws

lemma length_insertAt (l : List Char) (i : Nat) (c : Char) (h : i ≤ l.length) :
    (insertAt l i c).length = l.length + 1 := by
  simp [insertAt]
  omega

lemma insertAt_length_self (l : List Char) (c : Char) :
    insertAt l l.length c = l ++ [c] := by
  simp [insertAt]

lemma elongate_eq (g : List Char) (p : Nat) :
    elongate g p = g.take p ++ ([' '] ++ g.drop p) := by
  simp [elongate]

lemma length_elongate (g : List Char) (p : Nat) (h : p ≤ g.length) :
    (elongate g p).length = g.length + 1 := by
  simp [elongate]
  omega

lemma elongate_getElem?_self (g : List Char) (p : Nat) (h : p ≤ g.length) :
    (elongate g p)[p]? = some ' ' := by
  rw [elongate_eq, List.getElem?_append_right (by simp [h]), List.length_take]
  simp [Nat.min_eq_left h]

lemma elongate_getElem?_succ (g : List Char) (p : Nat) (h : p ≤ g.length) :
    (elongate g p)[p + 1]? = g[p]? := by
  rw [elongate_eq, List.getElem?_append_right (by simp [h]), List.length_take,
    Nat.min_eq_left h]
  have h1 : p + 1 - p = 1 := by omega
  rw [h1]
  have h2 := List.getElem?_drop g p 0
  simp only [Nat.add_zero] at h2
  simp [h2]

lemma deleteBefore_elongate (g : List Char) (p : Nat) (h : p ≤ g.length) :
    deleteBefore (elongate g p) (p + 1) = g := by
  have htake : (g.take p).length = p := by simp [Nat.min_eq_left h]
  have htake1 : (g.take p ++ [' ']).length = p + 1 := by simp [htake]
  unfold deleteBefore elongate
  rw [Nat.add_sub_cancel]
  rw [List.append_assoc, List.take_left' htake, ← List.append_assoc,
    List.drop_left' htake1, List.take_append_drop]

lemma calcAcc_fields {m m' : Model} (h : calculateAccuracy m = some m') :
    m'.ghostText = m.ghostText ∧ m'.input = m.input ∧ m'.pos = m.pos ∧
    m'.started = m.started ∧ m'.timedout = m.timedout ∧
    m'.wordsPerMinute = m.wordsPerMinute ∧ m.errorPositions ⊆ m'.errorPositions := by
  unfold calculateAccuracy at h
  split_ifs at h
  · injection h with h2
    subst h2
    exact ⟨rfl, rfl, rfl, rfl, rfl, rfl, Finset.Subset.refl _⟩
  · injection h with h2
    subst h2
    exact ⟨rfl, rfl, rfl, rfl, rfl, rfl, Finset.subset_union_left⟩
  · injection h with h2
    subst h2
    exact ⟨rfl, rfl, rfl, rfl, rfl, rfl, Finset.subset_union_left⟩

lemma calcAcc_isSome (m : Model) (h : m.input.length ≤ m.ghostText.length) :
    ∃ m', calculateAccuracy m = some m' := by
  unfold calculateAccuracy
  split_ifs <;> first
    | exact ⟨_, rfl⟩
    | omega

lemma branch_map_input_pos (m2 : Model) (h : m2.input.length ≤ m2.ghostText.length) :
    (if m2.started then calculateAccuracy m2 else some m2).map
      (fun s => (s.input, s.pos)) = some (m2.input, m2.pos) := by
  split
  · obtain ⟨m3, h3⟩ := calcAcc_isSome m2 h
    obtain ⟨-, hi, hp, -⟩ := calcAcc_fields h3
    rw [h3]
    simp [hi, hp]
  · rfl


lemma branch_map_ghost (m2 : Model) (h : m2.input.length ≤ m2.ghostText.length) :
    (if m2.started then calculateAccuracy m2 else some m2).map Model.ghostText =
      some m2.ghostText := by
  split
  · obtain ⟨m3, h3⟩ := calcAcc_isSome m2 h
    obtain ⟨hg, -⟩ := calcAcc_fields h3
    rw [h3, Option.map_some', hg]
  · rfl

/-- Timed-out session used for claim C1: GhostText is the two
characters of the word "ab", TypedInput holds one typed character,
cursor 1, timer expired. -/
def c1State : Model where
  ghostText := ['a', 'b']
  input := ['a']
  pos := 1
  started := true
  timedout := true
  errorPositions := ∅
  maxTyped := 1
  accuracy := 100
  wordsPerMinute := 0
  timeoutSecs := 0

/-- C1: the claim fails on the code for the Backspace event.  In a
timed-out state the Character and Space handlers return the state
completely unchanged, but the Backspace branch of `model.Update` has no
timed-out guard: the textinput update still deletes the last character of
TypedInput, so TypedInput changes from "a" to "". -/
theorem c1_backspace_not_rejected_after_timeout :
    c1State.timedout = true ∧
    charEvent 'x' c1State = some c1State ∧
    spaceEvent c1State = some c1State ∧
    (backspaceEvent c1State).map Model.input = some [] ∧
    c1State.input = ['a'] :=
  ⟨rfl, rfl, rfl, rfl, rfl⟩

/-- Session used for claim C2, Space part: GhostText "cat" has no space
delimiter at or after cursor 0. -/
def c2SpaceState : Model := initialModel ['c', 'a', 't']

/-- Session used for claim C2, Character part: the cursor sits at the end
of the one-character ghost text after the user typed it. -/
def c2CharState : Model where
  ghostText := ['a']
  input := ['a']
  pos := 1
  started := true
  timedout := false
  errorPositions := ∅
  maxTyped := 1
  accuracy := 100
  wordsPerMinute := 0
  timeoutSecs := 10

/-- Session used for claim C2, Backspace part: a ghost text that begins
with a space (as produced when the word list contains empty lines),
cursor 0. -/
def c2BackState : Model := initialModel [' ', 'x']

/-- C2: the claim fails on the code; none of the three guards it
describes exists.  A Space event with no delimiter at or after the cursor
reaches `strings.Repeat(" ", -1)` and panics; a Character event with the
cursor at `len(GhostText)` indexes `ghostText[cursor]` out of range; a
Backspace at cursor 0 on a ghost text starting with a space reads
`ghostText[-1]`.  All three are embedded as the `none` (panic) outcome. -/
theorem c2_handlers_panic_at_edges :
    spaceEvent c2SpaceState = none ∧
    charEvent 'x' c2CharState = none ∧
    backspaceEvent c2BackState = none :=
  ⟨rfl, rfl, rfl⟩

/-- Fresh session on GhostText "cat dog", used for claim C3. -/
def c3State : Model := initialModel ("cat dog".toList)

/-- C3 counterexample: pressing Space at cursor 0 on GhostText "cat dog"
leaves TypedInput with four spaces and the cursor at 4, not the three
spaces and cursor 3 the claim states: the handler appends the three
spaces up to the delimiter, and the textinput update then inserts the
space rune of the keystroke itself. -/
theorem c3_space_gives_four_spaces :
    (spaceEvent c3State).map (fun s => (s.input, s.pos)) =
      some (List.replicate 4 ' ', 4) ∧
    (List.replicate 4 ' ' ≠ List.replicate 3 ' ' ∧ (4 : Nat) ≠ 3) :=
  ⟨rfl, by decide, by decide⟩

/-- C3 amended: when the next space delimiter of GhostText lies at offset
`k` at or after the cursor, a Space event in a non-timed-out state
appends exactly `k + 1` spaces to TypedInput (`k` from the handler's bulk
append plus the space keystroke itself inserted by the text input), and
the cursor advances to the new end of TypedInput. -/
theorem c3_word_skip_amended (m : Model) (k : Nat)
    (ht : m.timedout = false) (ha : m.pos = m.input.length)
    (hk : (m.ghostText.drop m.pos).findIdx? (fun g => g = ' ') = some k) :
    (spaceEvent m).map (fun s => (s.input, s.pos)) =
      some (m.input ++ List.replicate (k + 1) ' ', m.input.length + k + 1) := by
  have hklt : k < (m.ghostText.drop m.pos).length :=
    (List.findIdx?_eq_some_iff_findIdx_eq.mp hk).1
  have hglen : m.pos + k < m.ghostText.length := by
    simp only [List.length_drop] at hklt
    omega
  unfold spaceEvent
  rw [if_neg (by simp [ht]), hk]
  rw [branch_map_input_pos]
  · simp only [insertAt_length_self]
    simp [List.append_assoc, ← List.replicate_succ']
  · simp only [insertAt_length_self]
    simp
    omega

/-- C3 amended witness: the concrete "cat dog" scenario, delimiter offset
3, resulting in four appended spaces and cursor 4. -/
theorem c3_word_skip_amended_witness :
    c3State.timedout = false ∧ c3State.pos = c3State.input.length ∧
    (c3State.ghostText.drop c3State.pos).findIdx? (fun g => g = ' ') = some 3 ∧
    (spaceEvent c3State).map (fun s => (s.input, s.pos)) =
      some (c3State.input ++ List.replicate (3 + 1) ' ', c3State.input.length + 3 + 1) :=
  ⟨rfl, rfl, rfl, c3_word_skip_amended c3State 3 rfl rfl rfl⟩

/-- C7: the claim fails on the code for the empty-corpus half.  `getWords`
does return the I/O error exactly when the word-list file cannot be read,
but with an empty file the newline split yields one element and
`rand.Intn(0)` panics instead of returning an error, and with a file
holding only a newline the split yields two empty words, so `getWords`
happily selects empty strings and `main` joins them into the degenerate
one-space ghost text. -/
theorem c7_empty_corpus_panics_or_degenerates :
    getWords 2 none (fun _ => 0) = WordsOutcome.ioError ∧
    getWords 2 (some []) (fun _ => 0) = WordsOutcome.panicked ∧
    getWords 2 (some ['\n']) (fun _ => 0) = WordsOutcome.ok [[], []] ∧
    ghostFromWords [[], []] = [' '] :=
  ⟨rfl, rfl, rfl, rfl⟩

/-- C4: confirmed.  Whenever `calculateAccuracy` completes, the accuracy
snapshot is recomputed only when the typed length exceeds the previous
high-water mark `maxTyped`: in that case the mark becomes the typed
length and the accuracy becomes 100 × (len − number of marked error
positions) / len, the error set being the one after the marking pass;
when the typed length does not exceed the mark, both the snapshot and the
mark are unchanged. -/
theorem c4_accuracy_high_water_mark (m m' : Model)
    (h : calculateAccuracy m = some m') :
    (m.maxTyped < m.input.length →
      m'.maxTyped = m.input.length ∧
      m'.accuracy = 100 * (((m.input.length : ℚ) -
        ((markErrors m.input m.ghostText m.errorPositions).card : ℚ)) /
          (m.input.length : ℚ))) ∧
    (m.input.length ≤ m.maxTyped →
      m'.accuracy = m.accuracy ∧ m'.maxTyped = m.maxTyped) := by
  unfold calculateAccuracy at h
  split_ifs at h with h1 h2 h3
  · injection h with heq
    subst heq
    refine ⟨fun hlt => absurd hlt (by omega), fun _ => ⟨rfl, rfl⟩⟩
  · injection h with heq
    subst heq
    refine ⟨fun _ => ⟨rfl, by ring⟩, fun hle => absurd hle (by omega)⟩
  · injection h with heq
    subst heq
    exact ⟨fun hlt => absurd hlt h3, fun _ => ⟨rfl, rfl⟩⟩

/-- Session used for the C4 witness: two typed characters, the second of
them wrong, crossing the high-water mark 0. -/
def c4State : Model where
  ghostText := ['a', 'x']
  input := ['a', 'b']
  pos := 2
  started := true
  timedout := false
  errorPositions := ∅
  maxTyped := 0
  accuracy := 100
  wordsPerMinute := 0
  timeoutSecs := 10

/-- Result state of `calculateAccuracy` on `c4State`: index 1 marked
wrong, high-water mark 2, accuracy recomputed. -/
def c4StateAfter : Model :=
  { c4State with
    errorPositions := markErrors c4State.input c4State.ghostText c4State.errorPositions
    maxTyped := c4State.input.length
    accuracy := ((c4State.input.length : ℚ) -
      ((markErrors c4State.input c4State.ghostText c4State.errorPositions).card : ℚ)) /
        (c4State.input.length : ℚ) * 100 }

/-- C4 witness: `calculateAccuracy` on the concrete crossing state bumps
the mark to 2 and recomputes the accuracy by the formula. -/
theorem c4_accuracy_high_water_mark_witness :
    calculateAccuracy c4State = some c4StateAfter ∧
    c4State.maxTyped < c4State.input.length ∧
    c4StateAfter.maxTyped = c4State.input.length ∧
    c4StateAfter.accuracy = 100 * (((c4State.input.length : ℚ) -
      ((markErrors c4State.input c4State.ghostText c4State.errorPositions).card : ℚ)) /
        (c4State.input.length : ℚ)) :=
  ⟨rfl, by decide,
    ((c4_accuracy_high_water_mark c4State c4StateAfter rfl).1 (by decide)).1,
    ((c4_accuracy_high_water_mark c4State c4StateAfter rfl).1 (by decide)).2⟩

/-- C6: confirmed.  On a timer tick in a non-timed-out state, the WPM
field is untouched while the elapsed time is below the 0.1 second
threshold (so it stays at its initial 0 before the threshold is first
crossed), and once the threshold is reached it is set to
floor((len(TypedInput)/5) × (60/elapsed)), which is never negative. -/
theorem c6_wpm_threshold (m : Model) (txt : List Char) (ht : m.timedout = false) :
    (initialModel txt).wordsPerMinute = 0 ∧
    (durationSecs - m.timeoutSecs < 1/10 →
      (tickEvent m).wordsPerMinute = m.wordsPerMinute) ∧
    (1/10 ≤ durationSecs - m.timeoutSecs →
      (tickEvent m).wordsPerMinute =
        Int.floor (((m.input.length : ℚ) / 5) * (60 / (durationSecs - m.timeoutSecs))) ∧
      0 ≤ (tickEvent m).wordsPerMinute) := by
  refine ⟨rfl, ?_⟩
  have hwpm : (tickEvent m).wordsPerMinute =
      if (1 : ℚ)/10 ≤ durationSecs - m.timeoutSecs then
        Int.floor (((m.input.length : ℚ) / 5) * (60 / (durationSecs - m.timeoutSecs)))
      else m.wordsPerMinute := by
    unfold tickEvent
    rw [if_neg (by simp [ht])]
    by_cases hc : (10 : ℚ)⁻¹ ≤ durationSecs - m.timeoutSecs
    · simp [hc]
    · simp [hc]
  constructor
  · intro hlt
    rw [hwpm, if_neg (not_le.mpr hlt)]
  · intro hge
    rw [hwpm, if_pos hge]
    refine ⟨rfl, ?_⟩
    rw [Int.floor_nonneg]
    have h0 : (0 : ℚ) ≤ durationSecs - m.timeoutSecs := le_trans (by norm_num) hge
    have ha : (0 : ℚ) ≤ (m.input.length : ℚ) / 5 := by positivity
    have hb : (0 : ℚ) ≤ 60 / (durationSecs - m.timeoutSecs) := by positivity
    exact mul_nonneg ha hb

/-- Running session used for the C6 witness: five typed characters, nine
seconds remaining, so one second elapsed. -/
def c6State : Model where
  ghostText := ['h', 'e', 'l', 'l', 'o']
  input := ['h', 'e', 'l', 'l', 'o']
  pos := 5
  started := true
  timedout := false
  errorPositions := ∅
  maxTyped := 5
  accuracy := 100
  wordsPerMinute := 0
  timeoutSecs := 9

/-- C6 witness: after one elapsed second with five typed characters the
tick sets WPM to the floored formula value, a non-negative number. -/
theorem c6_wpm_threshold_witness :
    c6State.timedout = false ∧
    (initialModel ['a']).wordsPerMinute = 0 ∧
    (tickEvent c6State).wordsPerMinute =
      Int.floor (((c6State.input.length : ℚ) / 5) *
        (60 / (durationSecs - c6State.timeoutSecs))) ∧
    0 ≤ (tickEvent c6State).wordsPerMinute :=
  ⟨rfl, (c6_wpm_threshold c6State ['a'] rfl).1,
    ((c6_wpm_threshold c6State ['a'] rfl).2.2 (by norm_num [durationSecs, c6State])).1,
    ((c6_wpm_threshold c6State ['a'] rfl).2.2 (by norm_num [durationSecs, c6State])).2⟩

lemma branch_fields {m2 m' : Model}
    (h : (if m2.started then calculateAccuracy m2 else some m2) = some m') :
    m'.ghostText = m2.ghostText ∧ m'.input = m2.input ∧ m'.pos = m2.pos ∧
    m'.started = m2.started ∧ m'.timedout = m2.timedout ∧
    m'.wordsPerMinute = m2.wordsPerMinute ∧
    m2.errorPositions ⊆ m'.errorPositions := by
  split at h
  · exact calcAcc_fields h
  · injection h with heq
    subst heq
    exact ⟨rfl, rfl, rfl, rfl, rfl, rfl, Finset.Subset.refl _⟩

lemma charEvent_aligned {m m' : Model} (c : Char)
    (h0 : m.pos = m.input.length) (h1 : m.pos ≤ m.ghostText.length)
    (h : charEvent c m = some m') :
    m'.pos = m'.input.length ∧ m'.pos ≤ m'.ghostText.length := by
  unfold charEvent at h
  by_cases htd : m.timedout
  · rw [if_pos htd] at h
    injection h with heq
    subst heq
    exact ⟨h0, h1⟩
  rw [if_neg htd] at h
  by_cases hoob : m.ghostText.length ≤ m.pos
  · rw [if_pos hoob] at h
    exact Option.noConfusion h
  rw [if_neg hoob] at h
  have hlt : m.pos < m.ghostText.length := by omega
  have hposle : m.pos ≤ m.input.length := le_of_eq h0
  by_cases hsp : m.ghostText.getD m.pos ' ' = ' '
  · rw [if_pos hsp] at h
    obtain ⟨hg', hi, hp, -, -, -, -⟩ := branch_fields h
    constructor
    · rw [hp, hi]
      show m.pos + 1 = (insertAt m.input m.pos c).length
      rw [length_insertAt m.input m.pos c hposle]
      omega
    · rw [hp, hg']
      show m.pos + 1 ≤ (elongate m.ghostText m.pos).length
      rw [length_elongate m.ghostText m.pos h1]
      omega
  · rw [if_neg hsp] at h
    obtain ⟨hg', hi, hp, -, -, -, -⟩ := branch_fields h
    constructor
    · rw [hp, hi]
      show m.pos + 1 = (insertAt m.input m.pos c).length
      rw [length_insertAt m.input m.pos c hposle]
      omega
    · rw [hp, hg']
      show m.pos + 1 ≤ m.ghostText.length
      omega

/-- C5: confirmed.  Along any sequence of Character events the alignment
invariant is preserved: starting from a state where the cursor equals the
typed length and does not exceed the ghost-text length (as in the initial
session state), every state the run reaches — in particular the state
after each event, since every prefix of the run is itself a run —
satisfies `pos = len(TypedInput)` and `pos ≤ len(GhostText)`. -/
theorem c5_cursor_alignment (cs : List Char) (m m' : Model)
    (h0 : m.pos = m.input.length) (h1 : m.pos ≤ m.ghostText.length)
    (h : runChars cs m = some m') :
    m'.pos = m'.input.length ∧ m'.pos ≤ m'.ghostText.length := by
  induction cs generalizing m with
  | nil =>
    simp only [runChars] at h
    injection h with heq
    subst heq
    exact ⟨h0, h1⟩
  | cons c cs ih =>
    simp only [runChars] at h
    cases hm1 : charEvent c m with
    | none =>
      rw [hm1] at h
      simp only [Option.none_bind] at h
      exact Option.noConfusion h
    | some m1 =>
      rw [hm1] at h
      simp only [Option.some_bind] at h
      obtain ⟨ha2, hb2⟩ := charEvent_aligned c h0 h1 hm1
      exact ih m1 ha2 hb2 h

/-- Fresh session on GhostText "ab", used for the C5 witness. -/
def c5Start : Model := initialModel ['a', 'b']

/-- State after typing "ab" from `c5Start`. -/
def c5End : Model := (runChars ['a', 'b'] c5Start).getD c5Start

/-- C5 witness: the two-character run from the initial "ab" session keeps
the cursor aligned with the typed length and inside the ghost text. -/
theorem c5_cursor_alignment_witness :
    c5Start.pos = c5Start.input.length ∧ c5Start.pos ≤ c5Start.ghostText.length ∧
    (c5End.pos = c5End.input.length ∧ c5End.pos ≤ c5End.ghostText.length) :=
  ⟨rfl, by decide, c5_cursor_alignment ['a', 'b'] c5Start c5End rfl (by decide) rfl⟩

lemma charEvent_errs_mono {m m' : Model} (c : Char) (h : charEvent c m = some m') :
    m.errorPositions ⊆ m'.errorPositions := by
  unfold charEvent at h
  by_cases htd : m.timedout
  · rw [if_pos htd] at h
    injection h with heq
    subst heq
    exact Finset.Subset.refl _
  rw [if_neg htd] at h
  by_cases hoob : m.ghostText.length ≤ m.pos
  · rw [if_pos hoob] at h
    exact Option.noConfusion h
  rw [if_neg hoob] at h
  by_cases hsp : m.ghostText.getD m.pos ' ' = ' '
  · rw [if_pos hsp] at h
    exact (branch_fields h).2.2.2.2.2.2
  · rw [if_neg hsp] at h
    exact (branch_fields h).2.2.2.2.2.2

lemma spaceEvent_errs_mono {m m' : Model} (h : spaceEvent m = some m') :
    m.errorPositions ⊆ m'.errorPositions := by
  unfold spaceEvent at h
  by_cases htd : m.timedout
  · rw [if_pos htd] at h
    injection h with heq
    subst heq
    exact Finset.Subset.refl _
  rw [if_neg htd] at h
  cases hk : (m.ghostText.drop m.pos).findIdx? (fun g => g = ' ') with
  | none =>
    rw [hk] at h
    exact Option.noConfusion h
  | some k =>
    rw [hk] at h
    exact (branch_fields h).2.2.2.2.2.2

lemma backspaceEvent_errs_mono {m m' : Model} (h : backspaceEvent m = some m') :
    m.errorPositions ⊆ m'.errorPositions := by
  unfold backspaceEvent at h
  by_cases h1 : m.ghostText.length ≤ m.pos
  · rw [if_pos h1] at h
    simp only [Option.some_bind] at h
    by_cases hz : m.input.length = 0
    · rw [if_pos hz] at h
      exact (branch_fields h).2.2.2.2.2.2
    · rw [if_neg hz] at h
      exact (branch_fields h).2.2.2.2.2.2
  rw [if_neg h1] at h
  by_cases h2 : m.ghostText.getD m.pos ' ' = ' '
  · rw [if_pos h2] at h
    by_cases h3 : m.pos = 0
    · rw [if_pos h3] at h
      simp only [Option.none_bind] at h
      exact Option.noConfusion h
    rw [if_neg h3] at h
    by_cases h4 : m.ghostText.getD (m.pos - 1) ' ' = ' '
    · rw [if_pos h4] at h
      simp only [Option.some_bind] at h
      by_cases hz : m.input.length = 0
      · rw [if_pos hz] at h
        exact (branch_fields h).2.2.2.2.2.2
      · rw [if_neg hz] at h
        exact (branch_fields h).2.2.2.2.2.2
    · rw [if_neg h4] at h
      simp only [Option.some_bind] at h
      by_cases hz : m.input.length = 0
      · rw [if_pos hz] at h
        exact (branch_fields h).2.2.2.2.2.2
      · rw [if_neg hz] at h
        exact (branch_fields h).2.2.2.2.2.2
  · rw [if_neg h2] at h
    simp only [Option.some_bind] at h
    by_cases hz : m.input.length = 0
    · rw [if_pos hz] at h
      exact (branch_fields h).2.2.2.2.2.2
    · rw [if_neg hz] at h
      exact (branch_fields h).2.2.2.2.2.2

lemma tickEvent_errs (m : Model) :
    (tickEvent m).errorPositions = m.errorPositions := by
  unfold tickEvent
  by_cases htd : m.timedout
  · rw [if_pos htd]
  · rw [if_neg htd]
    by_cases hc : (10 : ℚ)⁻¹ ≤ durationSecs - m.timeoutSecs
    · simp [hc]
    · simp [hc]

/-- C9: confirmed.  The error-marking pass is idempotent (marking twice
over the same TypedInput/GhostText pair equals marking once) and
append-only (the previous error set is contained in the marked one), and
along any successful step of the session every event can only grow
`errorPositions`, so an index once marked stays marked for the rest of
the session even if the character at that index is later overwritten
correctly. -/
theorem c9_error_marking (input ghost : List Char) (errs : Finset Nat)
    (e : Event) (m m' : Model) (h : step e m = some m') :
    markErrors input ghost (markErrors input ghost errs) =
      markErrors input ghost errs ∧
    errs ⊆ markErrors input ghost errs ∧
    m.errorPositions ⊆ m'.errorPositions := by
  refine ⟨?_, Finset.subset_union_left, ?_⟩
  · unfold markErrors
    rw [Finset.union_assoc, Finset.union_self]
  · cases e with
    | charKey c => exact charEvent_errs_mono c h
    | spaceKey => exact spaceEvent_errs_mono h
    | backspaceKey => exact backspaceEvent_errs_mono h
    | tick =>
      simp only [step] at h
      injection h with heq
      subst heq
      rw [tickEvent_errs]

/-- Fresh session on GhostText "ab", used for the C9 witness. -/
def c9Start : Model := initialModel ['a', 'b']

/-- State after one character event from `c9Start`. -/
def c9End : Model := (step (Event.charKey 'a') c9Start).getD c9Start

/-- C9 witness: concrete instance of idempotence, append-only marking and
per-step monotonicity of the error set. -/
theorem c9_error_marking_witness :
    markErrors ['x'] ['y'] (markErrors ['x'] ['y'] {0}) =
      markErrors ['x'] ['y'] {0} ∧
    ({0} : Finset Nat) ⊆ markErrors ['x'] ['y'] {0} ∧
    c9Start.errorPositions ⊆ c9End.errorPositions :=
  c9_error_marking ['x'] ['y'] {0} (Event.charKey 'a') c9Start c9End rfl

/-- C10: confirmed.  Elongation and backspace-merge are mutually inverse
on the ghost text: when the ghost character under the cursor is a space,
a Character event inserts one space there (elongation) and leaves the
cursor one past the insertion point, and the Backspace event taken next
fires the merge rule — both adjacent ghost positions are spaces — which
deletes exactly one of the two adjacent spaces and restores the original
ghost text exactly. -/
theorem c10_elongate_merge_inverse (m : Model) (c : Char)
    (ht : m.timedout = false) (ha : m.pos = m.input.length)
    (hp : m.pos < m.ghostText.length)
    (hsp : m.ghostText.getD m.pos ' ' = ' ') :
    deleteBefore (elongate m.ghostText m.pos) (m.pos + 1) = m.ghostText ∧
    (charEvent c m).map Model.ghostText = some (elongate m.ghostText m.pos) ∧
    (charEvent c m).map Model.pos = some (m.pos + 1) ∧
    ((charEvent c m).bind backspaceEvent).map Model.ghostText = some m.ghostText := by
  have hle : m.pos ≤ m.ghostText.length := le_of_lt hp
  have hchar : charEvent c m = calculateAccuracy
      { m with ghostText := elongate m.ghostText m.pos, started := true,
               input := insertAt m.input m.pos c, pos := m.pos + 1 } := by
    unfold charEvent
    rw [if_neg (by simp [ht]), if_neg (by omega), if_pos hsp]
    rfl
  have hm3le : (insertAt m.input m.pos c).length ≤ (elongate m.ghostText m.pos).length := by
    rw [length_insertAt m.input m.pos c (le_of_eq ha), length_elongate m.ghostText m.pos hle]
    omega
  obtain ⟨m4, h4⟩ := calcAcc_isSome
    { m with ghostText := elongate m.ghostText m.pos, started := true,
             input := insertAt m.input m.pos c, pos := m.pos + 1 } hm3le
  obtain ⟨h4g0, h4i0, h4p0, h4s0, h4t0, -, -⟩ := calcAcc_fields h4
  have hg4 : m4.ghostText = elongate m.ghostText m.pos := h4g0
  have hi4 : m4.input = insertAt m.input m.pos c := h4i0
  have hp4 : m4.pos = m.pos + 1 := h4p0
  have hs4 : m4.started = true := h4s0
  have hg4len : m4.ghostText.length = m.ghostText.length + 1 := by
    rw [hg4]
    exact length_elongate _ _ hle
  have hi4len : m4.input.length = m.input.length + 1 := by
    rw [hi4]
    exact length_insertAt _ _ _ (le_of_eq ha)
  refine ⟨deleteBefore_elongate _ _ hle, ?_, ?_, ?_⟩
  · rw [hchar, h4, Option.map_some']
    rw [hg4]
  · rw [hchar, h4, Option.map_some']
    rw [hp4]
  · rw [hchar, h4]
    rw [Option.some_bind]
    unfold backspaceEvent
    rw [if_neg (show ¬ (m4.ghostText.length ≤ m4.pos) by omega)]
    rw [if_pos (show m4.ghostText.getD m4.pos ' ' = ' ' by
      rw [hg4, hp4, List.getD_eq_getElem?_getD, elongate_getElem?_succ _ _ hle,
        ← List.getD_eq_getElem?_getD]
      exact hsp)]
    rw [if_neg (show ¬ (m4.pos = 0) by omega)]
    rw [if_pos (show m4.ghostText.getD (m4.pos - 1) ' ' = ' ' by
      rw [hg4, hp4, Nat.add_sub_cancel, List.getD_eq_getElem?_getD,
        elongate_getElem?_self _ _ hle]
      rfl)]
    rw [Option.some_bind]
    rw [if_neg (show ¬ (({ m4 with ghostText := deleteBefore m4.ghostText m4.pos } : Model).input.length = 0) by
      show ¬ (m4.input.length = 0)
      omega)]
    rw [branch_map_ghost]
    · show some (deleteBefore m4.ghostText m4.pos) = some m.ghostText
      rw [hg4, hp4, deleteBefore_elongate _ _ hle]
    · show (deleteBefore m4.input m4.pos).length ≤ (deleteBefore m4.ghostText m4.pos).length
      unfold deleteBefore
      simp only [List.length_append, List.length_take, List.length_drop]
      omega

/-- Running session used for the C10 witness: GhostText "a b" with the
cursor on the space delimiter at index 1. -/
def c10State : Model where
  ghostText := ['a', ' ', 'b']
  input := ['a']
  pos := 1
  started := true
  timedout := false
  errorPositions := ∅
  maxTyped := 1
  accuracy := 100
  wordsPerMinute := 0
  timeoutSecs := 10

/-- C10 witness: the concrete "a b" session, typing a character on the
delimiter and backspacing restores the ghost text. -/
theorem c10_elongate_merge_inverse_witness :
    deleteBefore (elongate c10State.ghostText c10State.pos) (c10State.pos + 1) =
      c10State.ghostText ∧
    (charEvent 'x' c10State).map Model.ghostText =
      some (elongate c10State.ghostText c10State.pos) ∧
    (charEvent 'x' c10State).map Model.pos = some (c10State.pos + 1) ∧
    ((charEvent 'x' c10State).bind backspaceEvent).map Model.ghostText =
      some c10State.ghostText :=
  c10_elongate_merge_inverse c10State 'x' rfl rfl (by decide) rfl

/-- C8 counterexample: with the two-entry word list "a\nb" the last
entry "b" can never be selected, whatever the random source does, because
`rand.Intn(len(words)-1)` draws indices strictly below `len(words)-1`. -/
theorem c8_last_entry_never_selected : ¬ selectable 1 ['a', '\n', 'b'] ['b'] := by
  rintro ⟨rnd, ws, hok, hmem⟩
  have hsplit : splitNewlines ['a', '\n', 'b'] = [['a'], ['b']] := rfl
  simp only [getWords, hsplit] at hok
  simp [Nat.mod_one] at hok
  subst hok
  simp at hmem

/-- C8 amended: for every positive count and readable word list with at
least two newline-split entries, every entry except the last one is a
possible selection of `getWords` (the bound `len(words)-1` passed to
`rand.Intn` excludes exactly the final entry). -/
theorem c8_all_but_last_selectable (contents : List Char) (count i : Nat)
    (hc : 0 < count) (hi : i + 1 < (splitNewlines contents).length) :
    selectable count contents ((splitNewlines contents).getD i []) := by
  refine ⟨fun _ => i,
    (List.range count).map (fun _ => (splitNewlines contents).getD i []), ?_, ?_⟩
  · simp only [getWords]
    rw [if_neg (by omega)]
    have hmod : i % ((splitNewlines contents).length - 1) = i :=
      Nat.mod_eq_of_lt (by omega)
    simp [hmod]
  · exact List.mem_map.mpr ⟨0, List.mem_range.mpr hc, rfl⟩

/-- C8 amended witness: in the word list "a\nb" the first entry "a" is
selectable. -/
theorem c8_all_but_last_selectable_witness :
    (0 : Nat) < 1 ∧ 0 + 1 < (splitNewlines ['a', '\n', 'b']).length ∧
    selectable 1 ['a', '\n', 'b'] ((splitNewlines ['a', '\n', 'b']).getD 0 []) :=
  ⟨by decide, by decide,
    c8_all_but_last_selectable ['a', '\n', 'b'] 1 0 (by decide) (by decide)⟩

end TypeTest
